import Mathlib

/-!
Verification development for the kubesdk repository.

This file gives a shallow embedding, in Lean 4, of the parts of the
repository that the checked claims are about:

* `JsonPatch` — the RFC 6902 diff/apply engine
  (`kubesdk/_patch/json_patch.py`; the module itself ships only with its
  test suite, so the definitions here are modelled from the specification,
  §4.B, and from the behaviours pinned by `test/test_json_patch.py`).
* `Auth` — the `authenticated` retry loop, `APIContext` construction,
  round-robin dispatch, close semantics, `_TempFiles`, and
  `GlobalContextVar` (from `kubesdk/auth.py`).
* `Models` — the resource codec round-trip contract (§4.A; the generated
  codec `loader.py` is not part of the sources, so a representative typed
  resource and its codec are modelled from the specification).
* `Cli` — the exit-code mapping of the code-generator entry point
  (`kubesdk_cli/src/cli.py`).

Python dictionaries are embedded as association lists; the well-formedness
predicate `Json.wfb` singles out the canonical representation (object keys
strictly sorted), on which Lean equality coincides with Python `==`.
Python numbers are modelled as integers.
-/

namespace JsonPatch

/-- Modelled from the spec: generic JSON trees (`null`, booleans, numbers,
strings, arrays, objects).  Objects are association lists of string keys;
numbers are modelled as integers. -/
inductive Json : Type where
  | null : Json
  | bool (b : Bool) : Json
  | num (n : Int) : Json
  | str (s : String) : Json
  | arr (elems : List Json) : Json
  | obj (fields : List (String × Json)) : Json

mutual

/-- Modelled from the spec: `_deep_equal` — structural deep equality used by
the diff engine to decide that two subtrees need no patch (Python `==`).
On canonical (sorted-key) objects this coincides with Lean equality. -/
def _deep_equal : Json → Json → Bool
  | .null, .null => true
  | .bool a, .bool b => a == b
  | .num a, .num b => a == b
  | .str a, .str b => a == b
  | .arr xs, .arr ys => deepEqualArr xs ys
  | .obj ms, .obj ns => deepEqualObj ms ns
  | _, _ => false

def deepEqualArr : List Json → List Json → Bool
  | [], [] => true
  | x :: xs, y :: ys => _deep_equal x y && deepEqualArr xs ys
  | _, _ => false

def deepEqualObj : List (String × Json) → List (String × Json) → Bool
  | [], [] => true
  | (k1, v1) :: ms, (k2, v2) :: ns => k1 == k2 && _deep_equal v1 v2 && deepEqualObj ms ns
  | _, _ => false

end

/-- RFC 6901 pointer tokens after parsing and un-escaping: an object key,
an array index, or the end-of-array marker `-`.  This mirrors the token
lists produced by the implementation's internal pointer parser. -/
inductive Tok : Type where
  | key (s : String) : Tok
  | idx (n : Nat) : Tok
  | last : Tok
deriving DecidableEq

/-- RFC 6902 patch operations over parsed pointer token lists. -/
inductive Op : Type where
  | add (path : List Tok) (value : Json) : Op
  | remove (path : List Tok) : Op
  | replace (path : List Tok) (value : Json) : Op
  | test (path : List Tok) (value : Json) : Op
  | copy (source : List Tok) (path : List Tok) : Op
  | move (source : List Tok) (path : List Tok) : Op

/-- Rebase an operation one level deeper: prepend a token to its path(s).
Used by the diff engine when descending into object members and array
elements. -/
def Op.prepend (t : Tok) : Op → Op
  | .add p v => .add (t :: p) v
  | .remove p => .remove (t :: p)
  | .replace p v => .replace (t :: p) v
  | .test p v => .test (t :: p) v
  | .copy s p => .copy (t :: s) (t :: p)
  | .move s p => .move (t :: s) (t :: p)

/-- Errors of the patch engine: `pointer` is `JsonPointerError` (malformed
or invalid pointer / traversal target; the carried message abstracts the
Python message), `testFailed` is `JsonPatchTestFailed`. -/
inductive PatchError : Type where
  | pointer (msg : String) : PatchError
  | testFailed : PatchError
deriving DecidableEq

/-- First value bound to key `k` in an association list (Python `d[k]`). -/
def lookupKey (k : String) : List (String × Json) → Option Json
  | [] => none
  | (k', v) :: m => if k' = k then some v else lookupKey k m

/-- Overwrite the value bound to key `k`, keeping its position
(Python `d[k] = v` when `k` is already present). -/
def setKey (k : String) (v : Json) : List (String × Json) → List (String × Json)
  | [] => []
  | (k', v') :: m => if k' = k then (k, v) :: m else (k', v') :: setKey k v m

/-- Delete the binding of key `k`; no-op when the key is absent
(the spec's `remove` on a missing object key). -/
def removeKey (k : String) : List (String × Json) → List (String × Json)
  | [] => []
  | (k', v') :: m => if k' = k then m else (k', v') :: removeKey k m

/-- Insert (or overwrite) a binding, keeping the canonical sorted-key
order; the map denoted is the Python dict after `d[k] = v`. -/
def insertKey (k : String) (v : Json) : List (String × Json) → List (String × Json)
  | [] => [(k, v)]
  | (k', v') :: m =>
    if k' = k then (k, v) :: m
    else if k < k' then (k, v) :: (k', v') :: m
    else (k', v') :: insertKey k v m

/-- Insert a value before position `i` of a list (RFC 6902 `add` into an
array index: shifts the suffix right). -/
def insertAt (i : Nat) (v : Json) : List Json → List Json
  | xs =>
    match i, xs with
    | 0, xs => v :: xs
    | _ + 1, [] => [v]
    | n + 1, x :: xs => x :: insertAt n v xs

/-- Shared pointer traversal of the three mutating operations: walk the
path, rebuild the tree around the edited child; `rootCase` handles the
empty pointer `/`, `leafCase` the final token.  Traversing into a scalar
or a missing child fails with a pointer error. -/
def editAtPath (rootCase : Json → Except PatchError Json)
    (leafCase : Json → Tok → Except PatchError Json) :
    Json → List Tok → Except PatchError Json
  | doc, [] => rootCase doc
  | doc, t :: ts =>
    match ts with
    | [] => leafCase doc t
    | _ :: _ =>
      match doc, t with
      | .obj m, .key k =>
        match lookupKey k m with
        | some c => (editAtPath rootCase leafCase c ts).map fun c2 => .obj (setKey k c2 m)
        | none => .error (.pointer "Invalid target: missing key")
      | .arr xs, .idx i =>
        match xs[i]? with
        | some c => (editAtPath rootCase leafCase c ts).map fun c2 => .arr (xs.set i c2)
        | none => .error (.pointer "Invalid array index")
      | _, _ => .error (.pointer "Invalid target")

/-- Modelled from the spec: terminal step of `add` — insert into an object
(upsert), insert into an array at a valid index (`i ≤ len`; shifts right),
append on `-`; anything else is a pointer error. -/
def addLeaf (v : Json) : Json → Tok → Except PatchError Json
  | .obj m, .key k => .ok (.obj (insertKey k v m))
  | .arr xs, .idx i =>
    if i ≤ xs.length then .ok (.arr (insertAt i v xs)) else .error (.pointer "Invalid array index")
  | .arr xs, .last => .ok (.arr (xs ++ [v]))
  | .arr _, .key _ => .error (.pointer "Invalid array index")
  | _, _ => .error (.pointer "Invalid add target")

/-- Modelled from the spec: terminal step of `remove` — delete an object
key (no-op when absent), delete a valid array index; `-` and out-of-range
indices are pointer errors. -/
def removeLeaf : Json → Tok → Except PatchError Json
  | .obj m, .key k => .ok (.obj (removeKey k m))
  | .arr xs, .idx i =>
    if i < xs.length then .ok (.arr (xs.eraseIdx i)) else .error (.pointer "Invalid array index")
  | .arr _, .last => .error (.pointer "Invalid array index")
  | .arr _, .key _ => .error (.pointer "Invalid array index")
  | _, _ => .error (.pointer "Invalid remove target")

/-- Modelled from the spec: terminal step of `replace` — the target must
exist; an existing object key or a valid array index is overwritten. -/
def replaceLeaf (v : Json) : Json → Tok → Except PatchError Json
  | .obj m, .key k =>
    match lookupKey k m with
    | some _ => .ok (.obj (setKey k v m))
    | none => .error (.pointer "Invalid replace target")
  | .arr xs, .idx i =>
    if i < xs.length then .ok (.arr (xs.set i v)) else .error (.pointer "Invalid array index")
  | .arr _, .last => .error (.pointer "Invalid array index")
  | .arr _, .key _ => .error (.pointer "Invalid array index")
  | _, _ => .error (.pointer "Invalid replace target")

/-- `add`: at the root pointer the whole document is replaced. -/
def applyAdd (doc : Json) (p : List Tok) (v : Json) : Except PatchError Json :=
  editAtPath (fun _ => .ok v) (addLeaf v) doc p

/-- `remove`: removing the root is a pointer error. -/
def applyRemove (doc : Json) (p : List Tok) : Except PatchError Json :=
  editAtPath (fun _ => .error (.pointer "Cannot remove root")) removeLeaf doc p

/-- `replace`: at the root pointer the whole document is replaced. -/
def applyReplace (doc : Json) (p : List Tok) (v : Json) : Except PatchError Json :=
  editAtPath (fun _ => .ok v) (replaceLeaf v) doc p

/-- Read-only pointer resolution (used by `test`, `copy` and `move`);
`-` is not a valid read target. -/
def getAt : Json → List Tok → Except PatchError Json
  | doc, [] => .ok doc
  | .obj m, .key k :: ts =>
    (match lookupKey k m with
     | some c => getAt c ts
     | none => .error (.pointer "Invalid target: missing key"))
  | .arr xs, .idx i :: ts =>
    (match xs[i]? with
     | some c => getAt c ts
     | none => .error (.pointer "Invalid array index"))
  | _, _ :: _ => .error (.pointer "Invalid target")

/-- `test`: deep-compare the value at the pointer; mismatch raises
`JsonPatchTestFailed`, distinct from pointer errors. -/
def applyTest (doc : Json) (p : List Tok) (v : Json) : Except PatchError Json :=
  match getAt doc p with
  | .ok cur => if _deep_equal cur v then .ok doc else .error .testFailed
  | .error e => .error e

/-- Same-array `move` adjustment: when source and destination live in the
same array and the source index precedes the destination index, the
destination shifts left by one after the removal of the source. -/
def adjustMovePath (source path : List Tok) : List Tok :=
  match source.getLast?, path.getLast? with
  | some (.idx i), some (.idx j) =>
    if source.dropLast = path.dropLast ∧ i < j then path.dropLast ++ [.idx (j - 1)] else path
  | _, _ => path

/-- `copy`: resolve `from` first, then add the value at `path`. -/
def applyCopy (doc : Json) (s p : List Tok) : Except PatchError Json := do
  let v ← getAt doc s
  applyAdd doc p v

/-- `move`: resolve `from` first, remove it, then add at the (possibly
adjusted) destination.  Moving the root fails, as removing it does. -/
def applyMove (doc : Json) (s p : List Tok) : Except PatchError Json := do
  let v ← getAt doc s
  let d ← applyRemove doc s
  applyAdd d (adjustMovePath s p) v

/-- Dispatch of a single RFC 6902 operation. -/
def applyOp (doc : Json) : Op → Except PatchError Json
  | .add p v => applyAdd doc p v
  | .remove p => applyRemove doc p
  | .replace p v => applyReplace doc p v
  | .test p v => applyTest doc p v
  | .copy s p => applyCopy doc s p
  | .move s p => applyMove doc s p

/-- Modelled from the spec: `apply_patch` — fold the ordered operation
list over the document, stopping at the first error (exception). -/
def apply_patch : Json → List Op → Except PatchError Json
  | doc, [] => .ok doc
  | doc, op :: ops =>
    match applyOp doc op with
    | .ok d => apply_patch d ops
    | .error e => .error e

mutual

/-- Modelled from the spec: `json_patch_from_diff` — equal subtrees yield
an empty patch; two objects and two arrays are diffed recursively; any
other combination (type change, differing scalars) is a single `replace`
at the node.  Object diffs emit `remove` for dropped keys, `add` for new
keys and recursive diffs for shared keys (a sorted-key merge on the
canonical representation); array diffs recurse on shared positions and
emit trailing `remove`/`add` operations (the spec's minimal-operations /
longest-common-subsequence refinement is not modelled — any diff policy
satisfying the apply contract is admissible, and index-wise replacement is
its stated preference for object elements). -/
def json_patch_from_diff (a b : Json) : List Op :=
  if _deep_equal a b then []
  else
    match a, b with
    | .obj ma, .obj mb => diffObj ma mb
    | .arr xs, .arr ys => diffArr 0 xs ys
    | _, bb => [.replace [] bb]

def diffObj : List (String × Json) → List (String × Json) → List Op
  | [], [] => []
  | (k, _) :: old, [] => .remove [.key k] :: diffObj old []
  | [], (k, v) :: new => .add [.key k] v :: diffObj [] new
  | (k1, v1) :: old, (k2, v2) :: new =>
    if k1 = k2 then
      (json_patch_from_diff v1 v2).map (Op.prepend (.key k1)) ++ diffObj old new
    else if k1 < k2 then
      .remove [.key k1] :: diffObj old ((k2, v2) :: new)
    else
      .add [.key k2] v2 :: diffObj ((k1, v1) :: old) new

def diffArr (i : Nat) : List Json → List Json → List Op
  | [], [] => []
  | _ :: old, [] => .remove [.idx i] :: diffArr i old []
  | [], n :: new => .add [.idx i] n :: diffArr (i + 1) [] new
  | o :: old, n :: new =>
    (json_patch_from_diff o n).map (Op.prepend (.idx i)) ++ diffArr (i + 1) old new

end

/-- Keys of an object association list, in order. -/
def keysOf (m : List (String × Json)) : List String := m.map Prod.fst

/-- Strictly ascending key list (the canonical object representation). -/
def sortedKeys : List String → Bool
  | [] => true
  | [_] => true
  | a :: b :: r => decide (a < b) && sortedKeys (b :: r)

mutual

/-- Canonical well-formedness: every object in the tree has strictly
sorted (hence duplicate-free) keys.  Python dicts are key-unique maps, so
every Python value has exactly one canonical representative; on canonical
trees Lean equality and Python `==` agree. -/
def Json.wfb : Json → Bool
  | .null => true
  | .bool _ => true
  | .num _ => true
  | .str _ => true
  | .arr xs => wfArr xs
  | .obj m => sortedKeys (keysOf m) && wfObj m

def wfArr : List Json → Bool
  | [] => true
  | x :: xs => x.wfb && wfArr xs

def wfObj : List (String × Json) → Bool
  | [] => true
  | (_, v) :: m => v.wfb && wfObj m

end

/-- Shape of the operations the diff engine emits: only `add`, `remove`
and `replace`, with `add` never targeting the root pointer.  Operations of
this shape can be rebased one container deeper. -/
def Op.liftOk : Op → Bool
  | .add [] _ => false
  | .add _ _ => true
  | .remove _ => true
  | .replace _ _ => true
  | _ => false

/-- The left document of the spec's pointer-escaping scenario. -/
def c1A : Json := .obj [("a/b", .obj [("t~n", .num 1)])]

/-- The right document of the spec's pointer-escaping scenario. -/
def c1B : Json := .obj [("a/b", .obj [("t~n", .num 2)]), ("plain", .num 0)]

end JsonPatch

namespace Auth

/-- Outcome of one attempt of the wrapped routine against one credential's
context, as discriminated by the `authenticated` wrapper in
`kubesdk/auth.py`: success, `UnauthorizedError` (401), `ForbiddenError`
(403, with an identifying payload), or `RuntimeError` raised with the
context closed / still open.  Result values are modelled as `Nat`. -/
inductive CallOutcome : Type where
  | success (v : Nat) : CallOutcome
  | unauthorized : CallOutcome
  | forbidden (e : Nat) : CallOutcome
  | runtimeClosed : CallOutcome
  | runtimeOpen : CallOutcome
deriving DecidableEq

/-- How the `authenticated` wrapper terminates: a returned value, or one of
the raised errors (`forbidden_err or UnauthorizedError()` after the vault
iterator is exhausted; an uncaught `RuntimeError` from an open context). -/
inductive AuthResult : Type where
  | ok (v : Nat) : AuthResult
  | raisedForbidden (e : Nat) : AuthResult
  | raisedUnauthorized : AuthResult
  | raisedRuntime : AuthResult
deriving DecidableEq

/-- The retry loop of the `authenticated` decorator (`auth.py` lines
92–110).  The vault iteration `async for key, info, context in
vault.extended(...)` is embedded as the list of candidates it would yield,
each with the outcome the wrapped call has on it; `vault.invalidate(key,
info)` calls are collected in order into the second component.  On 401 the
credential is invalidated and iteration continues; on 403 the error is
remembered (`forbidden_err = e`) and iteration continues; a `RuntimeError`
from a closed context invalidates and continues, from an open context it
propagates; after exhaustion the remembered `ForbiddenError` — or, absent
one, a fresh `UnauthorizedError` — is raised. -/
def authenticated (cands : List (Nat × CallOutcome)) (forbidden_err : Option Nat) :
    AuthResult × List Nat :=
  match cands with
  | [] =>
    match forbidden_err with
    | some e => (.raisedForbidden e, [])
    | none => (.raisedUnauthorized, [])
  | (key, outcome) :: rest =>
    match outcome with
    | .success v => (.ok v, [])
    | .unauthorized =>
      let r := authenticated rest forbidden_err
      (r.1, key :: r.2)
    | .forbidden e => authenticated rest (some e)
    | .runtimeClosed =>
      let r := authenticated rest forbidden_err
      (r.1, key :: r.2)
    | .runtimeOpen => (.raisedRuntime, [])

/-- Outcomes after which the loop advances to the vault's next candidate. -/
def isRetryable : CallOutcome → Bool
  | .unauthorized => true
  | .forbidden _ => true
  | .runtimeClosed => true
  | _ => false

/-- Outcomes that make the loop invalidate the current credential. -/
def isInvalidating : CallOutcome → Bool
  | .unauthorized => true
  | .runtimeClosed => true
  | _ => false

/-- The `forbidden_err` variable after folding the candidate list over an
initial value: the payload of the last 403 seen, if any. -/
def lastForbidden (forb : Option Nat) (cands : List (Nat × CallOutcome)) : Option Nat :=
  cands.foldl
    (fun acc c =>
      match c.2 with
      | .forbidden e => some e
      | _ => acc)
    forb

/-- Server-endpoint description consumed by `APIContext.__init__`
(fields of `ConnectionInfo.server_info` as used in `auth.py`).  A field
that Python treats as unset/falsy is `none`. -/
structure ServerInfo : Type where
  server : String
  certificate_authority : Option String := none
  certificate_authority_data : Option String := none
  insecure_skip_tls_verify : Bool := false
deriving DecidableEq

/-- Client-authentication description (fields of
`ConnectionInfo.client_info` as used in `auth.py`). -/
structure ClientInfo : Type where
  client_certificate : Option String := none
  client_certificate_data : Option String := none
  client_key : Option String := none
  client_key_data : Option String := none
  scheme : Option String := none
  token : Option String := none
  username : Option String := none
  password : Option String := none
deriving DecidableEq

/-- The materialized credential bundle a provider yields. -/
structure ConnectionInfo : Type where
  server_info : ServerInfo
  client_info : ClientInfo
  default_namespace : Option String := none
deriving DecidableEq

/-- `LoginError` from `kubesdk.credentials`, carrying its message. -/
inductive LoginError : Type where
  | loginError (msg : String) : LoginError
deriving DecidableEq

/-- The error `APIContext.call` raises on a closed context:
`RuntimeError("APIContext is closed")` — the spec's `ContextClosed`
condition. -/
inductive CallError : Type where
  | contextClosed : CallError
deriving DecidableEq

/-- A container of temporary files keyed by their content
(`_TempFiles` in `auth.py`): `_paths` maps written bytes to the path of
the file that currently exists on disk. -/
structure _TempFiles : Type where
  _path_suffix : String
  _paths : List (String × String) := []
deriving DecidableEq

/-- `_TempFiles.purge`: delete every materialized file from disk and
forget it.  In the source this runs from `__del__`, i.e. on
garbage-collection of the container. -/
def _TempFiles.purge (tf : _TempFiles) : _TempFiles :=
  { tf with _paths := [] }

/-- Embedded state of one `APIContext`: the derived header/auth values,
the TLS material paths handed to the SSL context, the paths of the
temporary files this context materialized and still holds on disk, the
flat `(worker, session)` address book with the round-robin counter, and
the closed flag.  The live objects (SSL context, aiohttp sessions, event
loops) are runtime I/O and are represented only through these fields. -/
structure APIContext : Type where
  server : String
  default_namespace : Option String
  ca_path : Option String
  client_cert_path : Option String
  client_key_path : Option String
  headers_authorization : Option String
  headers_user_agent : String
  basic_auth : Option (String × String)
  tempfiles : List String
  address_book : List (Nat × Nat)
  num_workers : Nat
  sessions_per_worker : Nat
  rr_counter : Nat
  closed : Bool
  workers_stopped : Bool
deriving DecidableEq

/-- One path/data pair of TLS material, as handled by the three
`if/elif` blocks of `APIContext.__init__`: both forms set is a
`LoginError`; a data form is materialized to a temp file whose name is
the content plus the per-context random suffix (the `tempfiles[...]`
lookup); the second component lists the files newly written to disk. -/
def resolveMaterial (pathCfg dataCfg : Option String) (suffix errMsg : String) :
    Except LoginError (Option String × List String) :=
  match pathCfg, dataCfg with
  | some _, some _ => .error (.loginError errMsg)
  | some p, none => .ok (some p, [])
  | none, some d => .ok (some (d ++ suffix), [d ++ suffix])
  | none, none => .ok (none, [])

/-- The `Authorization` default header (`auth.py` lines 252–259):
`"<scheme> <token>"` when both are set, `"<scheme>"` when only the scheme
is, `"Bearer <token>"` when only the token is, absent otherwise. -/
def buildHeaders (ci : ClientInfo) : Option String :=
  match ci.scheme, ci.token with
  | some scheme, some token => some (scheme ++ " " ++ token)
  | some scheme, none => some scheme
  | none, some token => some ("Bearer " ++ token)
  | none, none => none

/-- The flat address book over `w` workers with `s` sessions each
(`auth.py` lines 287–290). -/
def addressBook (w s : Nat) : List (Nat × Nat) :=
  (List.range w).flatMap fun wi => (List.range s).map fun si => (wi, si)

/-- `APIContext.__init__`: validates that path and data forms are not both
set for CA, client certificate and client key (raising `LoginError`
otherwise), materializes data forms to suffixed temp files, assembles the
default headers and basic auth, clamps the pool shape to at least one
worker and one session, and builds the address book with the round-robin
counter at zero.  `suffix` stands for the random per-context suffix. -/
def APIContext.init (info : ConnectionInfo) (pool_size : Nat) (threads : Nat)
    (suffix : String) : Except LoginError APIContext :=
  match resolveMaterial info.server_info.certificate_authority
      info.server_info.certificate_authority_data suffix
      "Both CA path and data are set. Need only one." with
  | .error e => .error e
  | .ok (ca_path, tf1) =>
  match resolveMaterial info.client_info.client_certificate
      info.client_info.client_certificate_data suffix
      "Both client certificate path and data are set. Need only one." with
  | .error e => .error e
  | .ok (client_cert_path, tf2) =>
  match resolveMaterial info.client_info.client_key
      info.client_info.client_key_data suffix
      "Both client private key path and data are set. Need only one." with
  | .error e => .error e
  | .ok (client_key_path, tf3) =>
  let w := max 1 threads
  let s := max 1 pool_size
  .ok
    { server := info.server_info.server
      default_namespace := info.default_namespace
      ca_path := ca_path
      client_cert_path := client_cert_path
      client_key_path := client_key_path
      headers_authorization := buildHeaders info.client_info
      headers_user_agent := "puzl.cloud/kubesdk"
      basic_auth :=
        match info.client_info.username, info.client_info.password with
        | some u, some p => some (u, p)
        | _, _ => none
      tempfiles := tf1 ++ tf2 ++ tf3
      address_book := addressBook w s
      num_workers := w
      sessions_per_worker := s
      rr_counter := 0
      closed := false
      workers_stopped := false }

/-- `APIContext._choose_address`: under the round-robin lock, read the
counter modulo the address-book size and advance it. -/
def APIContext._choose_address (ctx : APIContext) : (Nat × Nat) × APIContext :=
  (ctx.address_book.getD (ctx.rr_counter % ctx.address_book.length) (0, 0),
    { ctx with rr_counter := ctx.rr_counter + 1 })

/-- `APIContext.call`: on a closed context raise
`RuntimeError("APIContext is closed")`; otherwise pick the next
`(worker, session)` address round-robin and run the routine there.  The
embedding returns the chosen address together with the advanced state. -/
def APIContext.call (ctx : APIContext) : Except CallError ((Nat × Nat) × APIContext) :=
  if ctx.closed then .error .contextClosed
  else .ok ctx._choose_address

/-- Consecutive invocations of the round-robin chooser with no concurrent
callers: the list of the `n` addresses returned, threading the advanced
state through. -/
def rrTrace (ctx : APIContext) : Nat → List (Nat × Nat)
  | 0 => []
  | n + 1 =>
    let r := ctx._choose_address
    r.1 :: rrTrace r.2 n

/-- Both the path form and the data form are set for at least one of the
three TLS materials (CA, client certificate, client key) — the condition
the spec declares a fatal login error. -/
def tlsConflict (info : ConnectionInfo) : Bool :=
  (info.server_info.certificate_authority.isSome &&
      info.server_info.certificate_authority_data.isSome) ||
    (info.client_info.client_certificate.isSome &&
        info.client_info.client_certificate_data.isSome) ||
    (info.client_info.client_key.isSome && info.client_info.client_key_data.isSome)

/-- `APIContext.close`: set the closed flag and stop every worker.  The
source ends with `# tempfiles will be purged by _TempFiles.__del__` — the
temp files are left on disk for garbage-collection finalization, so the
embedded file list is unchanged. -/
def APIContext.close (ctx : APIContext) : APIContext :=
  if ctx.closed then ctx
  else { ctx with closed := true, workers_stopped := true }

/-- Last value bound to a key in an association list. -/
def lookupCtx {T : Type} (k : Nat) : List (Nat × T) → Option T
  | [] => none
  | (k', v) :: r => if k' = k then some v else lookupCtx k r

/-- Update/insert a key in an association list. -/
def setCtx {T : Type} (k : Nat) (v : T) : List (Nat × T) → List (Nat × T)
  | [] => [(k, v)]
  | (k', v') :: r => if k' = k then (k, v) :: r else (k', v') :: setCtx k v r

/-- `GlobalContextVar`: a `ContextVar` wrapper with a process-wide
default.  `_local` is the per-execution-context storage of the underlying
`ContextVar` (keyed by an execution-context id); `_global` fuses the
source's `_has_global`/`_global_value` pair — both are always written
together by `set`, so `none` means "set was never called". -/
structure GlobalContextVar (T : Type) : Type where
  _local : List (Nat × T) := []
  _global : Option T := none

/-- `GlobalContextVar.set`: update the calling context's local value and
record the value as the process-wide default. -/
def GlobalContextVar.set {T : Type} (g : GlobalContextVar T) (ctxId : Nat) (v : T) :
    GlobalContextVar T :=
  { _local := setCtx ctxId v g._local, _global := some v }

/-- `GlobalContextVar.get`: return the local context value when present;
otherwise the last process-wide value that was set; otherwise re-raise the
`LookupError` of the underlying `ContextVar`. -/
def GlobalContextVar.get {T : Type} (g : GlobalContextVar T) (ctxId : Nat) : Except Unit T :=
  match lookupCtx ctxId g._local with
  | some v => .ok v
  | none =>
    match g._global with
    | some v => .ok v
    | none => .error ()

/-- Run a trace of `set` calls, each tagged with the execution context
performing it, from the freshly constructed variable. -/
def runSets {T : Type} (ops : List (Nat × T)) : GlobalContextVar T :=
  ops.foldl (fun g p => g.set p.1 p.2) {}

/-- The last value a given execution context has set, if any. -/
def lastSetBy {T : Type} (c : Nat) (ops : List (Nat × T)) : Option T :=
  ops.foldl (fun acc p => if p.1 = c then some p.2 else acc) none

/-- A `ConnectionInfo` carrying CA material in data form, so that
constructing an `APIContext` from it materializes a temp file. -/
def c4info : ConnectionInfo :=
  { server_info := { server := "https://k8s.example", certificate_authority_data := some "CADATA" }
    client_info := {} }

/-- A `ConnectionInfo` violating the path/data exclusivity for the CA. -/
def c6infoBad : ConnectionInfo :=
  { server_info :=
      { server := "s", certificate_authority := some "/ca",
        certificate_authority_data := some "CAD" }
    client_info := {} }

/-- A `ConnectionInfo` with at most one form per TLS material. -/
def c6infoGood : ConnectionInfo :=
  { server_info := { server := "s", certificate_authority := some "/ca" }
    client_info := { client_key_data := some "KD" } }

/-- A `ConnectionInfo` with a bearer token only, plus basic-auth fields. -/
def c7info : ConnectionInfo :=
  { server_info := { server := "s" }
    client_info := { token := some "tok123", username := some "u", password := some "pw" } }

/-- A minimal `ConnectionInfo` with no TLS material. -/
def c5info : ConnectionInfo := { server_info := { server := "s" }, client_info := {} }

end Auth

namespace Models

open JsonPatch

/-- Modelled from the spec: the `metadata` record of a typed resource
(`ObjectMeta` with its optional identity fields; `namespace_` stands for
the `namespace` field). -/
structure ObjectMeta : Type where
  name : Option String := none
  namespace_ : Option String := none
deriving DecidableEq

/-- Modelled from the spec: a representative typed resource instance (the
`Secret` used by `kube_models/test/test_models.py`): identity strings, a
metadata record and a string-to-string payload map.  The generated codec
(`loader.py` / `Loadable`) is not part of the sources, so the codec below
is modelled from §4.A. -/
structure Secret : Type where
  apiVersion : String := "v1"
  kind : String := "Secret"
  metadata : ObjectMeta
  data : List (String × String) := []
deriving DecidableEq

/-- Encode an optional field: absent optionals are omitted from the
emitted tree (absent-optional normalization). -/
def optStrField (k : String) : Option String → List (String × Json)
  | some s => [(k, .str s)]
  | none => []

/-- Modelled from the spec: encode the metadata record. -/
def encodeMeta (m : ObjectMeta) : Json :=
  .obj (optStrField "name" m.name ++ optStrField "namespace" m.namespace_)

/-- Modelled from the spec: `to_dict` — encode a resource instance to a
generic JSON tree (keys emitted in canonical order). -/
def Secret.to_dict (r : Secret) : Json :=
  .obj
    [("apiVersion", .str r.apiVersion),
     ("data", .obj (r.data.map fun p => (p.1, .str p.2))),
     ("kind", .str r.kind),
     ("metadata", encodeMeta r.metadata)]

/-- Read an optional string field: absent is a successfully-decoded
`none`; a non-string value is a decode failure. -/
def getStrField (k : String) (fields : List (String × Json)) : Option (Option String) :=
  match lookupKey k fields with
  | none => some none
  | some (.str s) => some (some s)
  | some _ => none

/-- Modelled from the spec: decode the metadata record. -/
def decodeMeta : Json → Option ObjectMeta
  | .obj fields => do
    let n ← getStrField "name" fields
    let ns ← getStrField "namespace" fields
    pure { name := n, namespace_ := ns }
  | _ => none

/-- Modelled from the spec: decode a string-to-string map. -/
def decodeStringMap : Json → Option (List (String × String))
  | .obj fields =>
    fields.mapM fun p =>
      match p.2 with
      | .str s => some (p.1, s)
      | _ => none
  | _ => none

/-- Modelled from the spec: `from_dict` — decode a generic JSON tree into
the typed resource; a missing `data` key normalizes to the empty map. -/
def Secret.from_dict (j : Json) : Option Secret :=
  match j with
  | .obj fields => do
    let av ←
      match lookupKey "apiVersion" fields with
      | some (.str s) => some s
      | _ => none
    let k ←
      match lookupKey "kind" fields with
      | some (.str s) => some s
      | _ => none
    let md ←
      match lookupKey "metadata" fields with
      | some m => decodeMeta m
      | none => none
    let d ←
      match lookupKey "data" fields with
      | some dd => decodeStringMap dd
      | none => some []
    pure { apiVersion := av, kind := k, metadata := md, data := d }
  | _ => none

end Models

namespace Cli

/-- How one run of `cli()` terminates: normal return, `KeyboardInterrupt`,
`SystemExit` carrying its exit code (argparse usage errors exit with 2;
`parse_headers` raises `SystemExit` with a message, which exits with 1),
or any other exception. -/
inductive CliOutcome : Type where
  | success : CliOutcome
  | keyboardInterrupt : CliOutcome
  | systemExit (code : Nat) : CliOutcome
  | exception : CliOutcome
deriving DecidableEq

/-- The `__main__` handler of `kubesdk_cli/src/cli.py` (lines 49–59):
`KeyboardInterrupt` exits 130, `SystemExit` is re-raised and the process
exits with its code, any other exception exits 1, and a normal return
exits 0. -/
def mainExitCode : CliOutcome → Nat
  | .success => 0
  | .keyboardInterrupt => 130
  | .systemExit c => c
  | .exception => 1

/-- An outcome that is an error in the sense of the claim: anything other
than success and user interrupt. -/
def isErrorOutcome : CliOutcome → Bool
  | .success => false
  | .keyboardInterrupt => false
  | _ => true

end Cli

namespace Auth

theorem authenticated_invalidations (cands : List (Nat × CallOutcome)) :
    ∀ forb, (authenticated cands forb).2 =
      ((cands.takeWhile fun c => isRetryable c.2).filter fun c => isInvalidating c.2).map
        Prod.fst := by
  induction cands with
  | nil => intro forb; cases forb <;> simp [authenticated]
  | cons c rest ih =>
    intro forb
    obtain ⟨key, outcome⟩ := c
    cases outcome <;>
      simp [authenticated, isRetryable, isInvalidating, List.takeWhile_cons, List.filter_cons,
        ih]

theorem authenticated_success (key v : Nat) (post : List (Nat × CallOutcome)) :
    ∀ (pre : List (Nat × CallOutcome)) (forb : Option Nat),
      (∀ c ∈ pre, isRetryable c.2 = true) →
      (authenticated (pre ++ (key, .success v) :: post) forb).1 = .ok v := by
  intro pre
  induction pre with
  | nil => intro forb _; simp [authenticated]
  | cons c rest ih =>
    intro forb h
    obtain ⟨k0, o⟩ := c
    have hr : isRetryable o = true := h (k0, o) (List.mem_cons_self _ _)
    have hrest : ∀ c ∈ rest, isRetryable c.2 = true := fun c hc =>
      h c (List.mem_cons_of_mem _ hc)
    cases o with
    | unauthorized => simpa [authenticated] using ih forb hrest
    | forbidden e => simpa [authenticated] using ih (some e) hrest
    | runtimeClosed => simpa [authenticated] using ih forb hrest
    | success w => simp [isRetryable] at hr
    | runtimeOpen => simp [isRetryable] at hr

theorem authenticated_exhausted (cands : List (Nat × CallOutcome)) :
    ∀ (forb : Option Nat) (e : Nat), (∀ c ∈ cands, isRetryable c.2 = true) →
      lastForbidden forb cands = some e →
      (authenticated cands forb).1 = .raisedForbidden e := by
  induction cands with
  | nil =>
    intro forb e _ hl
    simp only [lastForbidden, List.foldl_nil] at hl
    subst hl
    simp [authenticated]
  | cons c rest ih =>
    intro forb e h hl
    obtain ⟨k0, o⟩ := c
    have hr : isRetryable o = true := h (k0, o) (List.mem_cons_self _ _)
    have hrest : ∀ c ∈ rest, isRetryable c.2 = true := fun c hc =>
      h c (List.mem_cons_of_mem _ hc)
    cases o with
    | unauthorized =>
      simp only [lastForbidden, List.foldl_cons] at hl
      simpa [authenticated] using ih forb e hrest hl
    | forbidden e0 =>
      simp only [lastForbidden, List.foldl_cons] at hl
      simpa [authenticated] using ih (some e0) e hrest hl
    | runtimeClosed =>
      simp only [lastForbidden, List.foldl_cons] at hl
      simpa [authenticated] using ih forb e hrest hl
    | success w => simp [isRetryable] at hr
    | runtimeOpen => simp [isRetryable] at hr

/-- C2: through the `authenticated` wrapper, a 401 invalidates the current
credential in the vault and the call proceeds with the next credential the
vault yields; a 403 never invalidates (the invalidated keys are exactly
the 401/closed-context ones among the candidates tried before iteration
stops) but is remembered; a later success is returned to the caller; and
when every candidate fails with a retryable error, the last remembered
`ForbiddenError` is raised. -/
theorem authenticated_error_protocol :
    (∀ (cands : List (Nat × CallOutcome)) (forb : Option Nat),
        (authenticated cands forb).2 =
          ((cands.takeWhile fun c => isRetryable c.2).filter fun c => isInvalidating c.2).map
            Prod.fst) ∧
    (∀ (key : Nat) (rest : List (Nat × CallOutcome)) (forb : Option Nat),
        authenticated ((key, .unauthorized) :: rest) forb =
          ((authenticated rest forb).1, key :: (authenticated rest forb).2)) ∧
    (∀ (pre : List (Nat × CallOutcome)) (key v : Nat) (post : List (Nat × CallOutcome))
        (forb : Option Nat), (∀ c ∈ pre, isRetryable c.2 = true) →
        (authenticated (pre ++ (key, .success v) :: post) forb).1 = .ok v) ∧
    (∀ (cands : List (Nat × CallOutcome)) (e : Nat),
        (∀ c ∈ cands, isRetryable c.2 = true) → lastForbidden none cands = some e →
        (authenticated cands none).1 = .raisedForbidden e) := by
  refine ⟨fun cands forb => authenticated_invalidations cands forb,
    fun key rest forb => rfl,
    fun pre key v post forb h => authenticated_success key v post pre forb h,
    fun cands e h hl => authenticated_exhausted cands none e h hl⟩

/-- Witness for C2: three candidates — a 401, a 403 with payload 7 and a
closed-context error — exhaust the vault and raise the remembered 403;
a 401 followed by a success returns the success. -/
theorem authenticated_error_protocol_witness :
    (authenticated [((0 : Nat), CallOutcome.unauthorized), (1, CallOutcome.forbidden 7),
        (2, CallOutcome.runtimeClosed)] none).1 = .raisedForbidden 7 ∧
    (authenticated [((4 : Nat), CallOutcome.unauthorized), (5, CallOutcome.success 9)]
        none).1 = .ok 9 := by
  constructor
  · exact authenticated_error_protocol.2.2.2 _ 7 (by decide) (by decide)
  · exact authenticated_error_protocol.2.2.1 [(4, CallOutcome.unauthorized)] 5 9 [] none
      (by decide)

/-- C3: once `close()` has run, the context's closed flag is set and every
invocation of `call()` on it fails with the closed-context error
(`RuntimeError("APIContext is closed")`, the spec's `ContextClosed`);
since the failing call leaves no successor state, every subsequent
invocation fails the same way. -/
theorem call_after_close (ctx : APIContext) :
    (APIContext.close ctx).closed = true ∧
    APIContext.call (APIContext.close ctx) = .error .contextClosed := by
  have hc : (APIContext.close ctx).closed = true := by
    unfold APIContext.close
    split
    · assumption
    · rfl
  exact ⟨hc, by simp [APIContext.call, hc]⟩

/-- C4 counterexample: an `APIContext` built from data-form CA material
holds one temp file, and after `close()` completes the file still exists —
`close` does not remove it (the source defers to `_TempFiles.__del__`). -/
theorem close_keeps_tempfiles_counterexample :
    (APIContext.init c4info 4 1 "_sfx").map (fun c => (APIContext.close c).tempfiles) =
      .ok ["CADATA_sfx"] ∧ (["CADATA_sfx"] : List String) ≠ [] := by
  constructor
  · rfl
  · simp

/-- C4 amended: completing `close()` leaves the context's temporary files
on disk untouched; they are removed only by `_TempFiles.purge`, which the
source invokes from the container's `__del__` finalizer. -/
theorem close_keeps_tempfiles (ctx : APIContext) (tf : _TempFiles) :
    (APIContext.close ctx).tempfiles = ctx.tempfiles ∧ (tf.purge)._paths = [] := by
  constructor
  · unfold APIContext.close
    split <;> rfl
  · rfl

theorem lookupCtx_setCtx_self {T : Type} (k : Nat) (v : T) (l : List (Nat × T)) :
    lookupCtx k (setCtx k v l) = some v := by
  induction l with
  | nil => simp [lookupCtx, setCtx]
  | cons p r ih =>
    obtain ⟨k0, v0⟩ := p
    by_cases h : k0 = k
    · subst h; simp [setCtx, lookupCtx]
    · simp [setCtx, lookupCtx, h, ih]

theorem lookupCtx_setCtx_ne {T : Type} {k k0 : Nat} (h : k0 ≠ k) (v : T)
    (l : List (Nat × T)) : lookupCtx k (setCtx k0 v l) = lookupCtx k l := by
  induction l with
  | nil => simp [lookupCtx, setCtx, h]
  | cons p r ih =>
    obtain ⟨k1, v1⟩ := p
    by_cases h1 : k1 = k0
    · subst h1; simp [setCtx, lookupCtx, h, ih]
    · by_cases h2 : k1 = k <;> simp [setCtx, lookupCtx, h1, h2, Ne.symm h, ih]

theorem runSets_local_aux {T : Type} (c : Nat) (ops : List (Nat × T)) :
    ∀ g0 : GlobalContextVar T,
      lookupCtx c ((ops.foldl (fun g p => g.set p.1 p.2) g0)._local) =
        ops.foldl (fun a p => if p.1 = c then some p.2 else a) (lookupCtx c g0._local) := by
  induction ops with
  | nil => intro g0; rfl
  | cons p rest ih =>
    intro g0
    simp only [List.foldl_cons]
    rw [ih]
    congr 1
    by_cases h : p.1 = c
    · rw [if_pos h, GlobalContextVar.set, ← h, lookupCtx_setCtx_self]
    · rw [if_neg h, GlobalContextVar.set]
      exact lookupCtx_setCtx_ne h p.2 g0._local

theorem runSets_global {T : Type} (ops : List (Nat × T)) :
    ∀ g0 : GlobalContextVar T,
      (ops.foldl (fun g p => g.set p.1 p.2) g0)._global =
        (match ops.getLast? with
         | some p => some p.2
         | none => g0._global) := by
  induction ops with
  | nil => intro g0; rfl
  | cons p rest ih =>
    intro g0
    simp only [List.foldl_cons]
    rw [ih]
    cases rest with
    | nil => simp [GlobalContextVar.set]
    | cons q r =>
      cases hq : (q :: r).getLast? with
      | none => simp at hq
      | some p0 => simp [hq]

/-- C10: for a `GlobalContextVar` driven by any trace of `set` calls from
arbitrary execution contexts, `get` returns the calling context's local
value when one is present (the last value that context set); otherwise it
returns the most recently set process-wide value regardless of which
context set it; and it raises `LookupError` exactly when `set` was never
called. -/
theorem globalContextVar_semantics {T : Type} (ops : List (Nat × T)) (ctxId : Nat) :
    ((runSets ops).get ctxId = .error () ↔ ops = []) ∧
    (∀ v, lookupCtx ctxId (runSets ops)._local = some v → (runSets ops).get ctxId = .ok v) ∧
    (lookupCtx ctxId (runSets ops)._local = lastSetBy ctxId ops) ∧
    (lookupCtx ctxId (runSets ops)._local = none →
      ∀ p, ops.getLast? = some p → (runSets ops).get ctxId = .ok p.2) := by
  have hg := runSets_global ops ({} : GlobalContextVar T)
  have hl := runSets_local_aux ctxId ops ({} : GlobalContextVar T)
  refine ⟨?_, ?_, ?_, ?_⟩
  · constructor
    · intro herr
      by_contra hne
      obtain ⟨p, hp⟩ := List.getLast?_isSome.mpr hne |> Option.isSome_iff_exists.mp
      rw [hp] at hg
      unfold GlobalContextVar.get at herr
      cases hcase : lookupCtx ctxId (runSets ops)._local with
      | some v => rw [hcase] at herr; simp at herr
      | none =>
        rw [hcase] at herr
        rw [show (runSets ops)._global = some p.2 from hg] at herr
        simp at herr
    · intro h
      subst h
      rfl
  · intro v hv
    simp [GlobalContextVar.get, hv]
  · simpa [runSets, lastSetBy, lookupCtx] using hl
  · intro hnone p hp
    rw [hp] at hg
    simp [GlobalContextVar.get, hnone, show (runSets ops)._global = some p.2 from hg]

/-- Witness for C10: after sets by contexts 1 and 2, a third context with
no local value reads the most recent value 20; context 1 reads its own
local value 10. -/
theorem globalContextVar_semantics_witness :
    (runSets [((1 : Nat), (10 : Nat)), (2, 20)]).get 3 = .ok 20 ∧
    (runSets [((1 : Nat), (10 : Nat)), (2, 20)]).get 1 = .ok 10 := by
  constructor
  · exact (globalContextVar_semantics _ 3).2.2.2 (by decide) (2, 20) (by decide)
  · exact (globalContextVar_semantics _ 1).2.1 10 (by decide)

/-- C6: constructing an `APIContext` fails with `LoginError` exactly when
some TLS material has both its path form and its data form set; with at
most one form per material, no login error is raised. -/
theorem init_loginError_iff :
    ∀ (info : ConnectionInfo) (ps th : Nat) (sfx : String),
      (∃ e, APIContext.init info ps th sfx = .error e) ↔ tlsConflict info = true := by
  intro info ps th sfx
  obtain ⟨⟨srv, ca, cad, skip⟩, ⟨cc, ccd, ck, ckd, sch, tok, u, pw⟩, dns⟩ := info
  cases ca <;> cases cad <;> cases cc <;> cases ccd <;> cases ck <;> cases ckd <;>
    simp [APIContext.init, resolveMaterial, tlsConflict]

/-- Witness for C6: both CA forms set yields a `LoginError`; one form per
material does not. -/
theorem init_loginError_iff_witness :
    (∃ e, APIContext.init c6infoBad 4 1 "_s" = .error e) ∧
    ¬(∃ e, APIContext.init c6infoGood 4 1 "_s" = .error e) := by
  constructor
  · exact (init_loginError_iff c6infoBad 4 1 "_s").mpr (by decide)
  · intro h
    exact absurd ((init_loginError_iff c6infoGood 4 1 "_s").mp h) (by decide)

theorem init_ok_proj {info : ConnectionInfo} {ps th : Nat} {sfx : String} {ctx : APIContext}
    (h : APIContext.init info ps th sfx = .ok ctx) :
    ctx.headers_authorization = buildHeaders info.client_info ∧
    ctx.headers_user_agent = "puzl.cloud/kubesdk" ∧
    ctx.basic_auth = (match info.client_info.username, info.client_info.password with
      | some u, some p => some (u, p)
      | _, _ => none) ∧
    ctx.address_book = addressBook (max 1 th) (max 1 ps) ∧
    ctx.num_workers = max 1 th ∧
    ctx.sessions_per_worker = max 1 ps ∧
    ctx.rr_counter = 0 ∧
    ctx.closed = false := by
  unfold APIContext.init at h
  split at h
  · simp at h
  · split at h
    · simp at h
    · split at h
      · simp at h
      · dsimp only at h
        injection h with h2
        subst h2
        exact ⟨rfl, rfl, rfl, rfl, rfl, rfl, rfl, rfl⟩

/-- C7: for every successfully constructed `APIContext`, the default
`Authorization` header follows the scheme/token cases of the claim, basic
auth is attached exactly when both username and password are present, and
`User-Agent` is the fixed identifier. -/
theorem apiContext_default_headers :
    ∀ (info : ConnectionInfo) (ps th : Nat) (sfx : String) (ctx : APIContext),
      APIContext.init info ps th sfx = .ok ctx →
      ctx.headers_user_agent = "puzl.cloud/kubesdk" ∧
      (∀ sch tok, info.client_info.scheme = some sch → info.client_info.token = some tok →
        ctx.headers_authorization = some (sch ++ " " ++ tok)) ∧
      (∀ sch, info.client_info.scheme = some sch → info.client_info.token = none →
        ctx.headers_authorization = some sch) ∧
      (∀ tok, info.client_info.scheme = none → info.client_info.token = some tok →
        ctx.headers_authorization = some ("Bearer " ++ tok)) ∧
      (info.client_info.scheme = none → info.client_info.token = none →
        ctx.headers_authorization = none) ∧
      (∀ u p, info.client_info.username = some u → info.client_info.password = some p →
        ctx.basic_auth = some (u, p)) ∧
      ((info.client_info.username = none ∨ info.client_info.password = none) →
        ctx.basic_auth = none) := by
  intro info ps th sfx ctx h
  obtain ⟨hauth, hua, hbasic, -, -, -, -, -⟩ := init_ok_proj h
  refine ⟨hua, ?_, ?_, ?_, ?_, ?_, ?_⟩
  · intro sch tok h1 h2; rw [hauth]; simp [buildHeaders, h1, h2]
  · intro sch h1 h2; rw [hauth]; simp [buildHeaders, h1, h2]
  · intro tok h1 h2; rw [hauth]; simp [buildHeaders, h1, h2]
  · intro h1 h2; rw [hauth]; simp [buildHeaders, h1, h2]
  · intro u p h1 h2; rw [hbasic]; simp [h1, h2]
  · intro h1
    rw [hbasic]
    rcases h1 with h1 | h1
    · simp [h1]
    · cases hu : info.client_info.username <;> simp [h1, hu]

/-- Witness for C7: token without scheme yields a `Bearer` header, both
basic-auth fields yield basic auth, and the fixed `User-Agent` is set. -/
theorem apiContext_default_headers_witness :
    ∃ ctx, APIContext.init c7info 4 1 "_s" = .ok ctx ∧
      ctx.headers_authorization = some ("Bearer " ++ "tok123") ∧
      ctx.basic_auth = some ("u", "pw") ∧
      ctx.headers_user_agent = "puzl.cloud/kubesdk" := by
  have h := apiContext_default_headers c7info 4 1 "_s" _ rfl
  exact ⟨_, rfl, h.2.2.2.1 "tok123" rfl rfl, h.2.2.2.2.2.1 "u" "pw" rfl rfl, h.1⟩

end Auth

namespace Cli

/-- C9 counterexample: a `SystemExit` carrying code 2 (as argparse raises
on a usage error) is an error outcome that is not a user interrupt, yet
the entry point re-raises it and the process exits with 2, not 1. -/
theorem cli_exit_code_counterexample :
    isErrorOutcome (.systemExit 2) = true ∧ mainExitCode (.systemExit 2) = 2 ∧
      mainExitCode (.systemExit 2) ≠ 1 := by
  decide

/-- C9 amended: the entry point exits 0 on success, 130 on
`KeyboardInterrupt` and 1 on any other exception, except that `SystemExit`
is re-raised and the process exits with the code it carries (2 for
argparse usage errors). -/
theorem cli_exit_codes :
    mainExitCode .success = 0 ∧ mainExitCode .keyboardInterrupt = 130 ∧
      mainExitCode .exception = 1 ∧ ∀ c, mainExitCode (.systemExit c) = c :=
  ⟨rfl, rfl, rfl, fun _ => rfl⟩

end Cli

namespace Auth

theorem addressBook_length (w s : Nat) : (addressBook w s).length = w * s := by
  induction w with
  | zero => simp [addressBook]
  | succ n ih =>
    have hsplit : addressBook (n + 1) s = addressBook n s ++ (List.range s).map fun si => (n, si) := by
      simp [addressBook, List.range_succ]
    rw [hsplit, List.length_append, ih, List.length_map, List.length_range, Nat.succ_mul]

theorem addressBook_nodup (w s : Nat) : (addressBook w s).Nodup := by
  rw [addressBook, List.nodup_flatMap]
  constructor
  · intro x _
    exact (List.nodup_range s).map fun a b hab => by simpa using congrArg Prod.snd hab
  · refine (List.pairwise_lt_range w).imp ?_
    intro a b hab
    intro x hxa hxb
    simp only [List.mem_map, List.mem_range] at hxa hxb
    obtain ⟨si, -, rfl⟩ := hxa
    obtain ⟨sj, -, hj⟩ := hxb
    exact absurd (congrArg Prod.fst hj) (by simpa using Nat.ne_of_gt hab)

theorem addressBook_mem (w s : Nat) (a : Nat × Nat) :
    a ∈ addressBook w s ↔ a.1 < w ∧ a.2 < s := by
  obtain ⟨x, y⟩ := a
  simp only [addressBook, List.mem_flatMap, List.mem_map, List.mem_range]
  constructor
  · rintro ⟨wi, hwi, si, hsi, heq⟩
    obtain ⟨rfl, rfl⟩ := Prod.mk.injEq .. ▸ heq
    exact ⟨hwi, hsi⟩
  · rintro ⟨hx, hy⟩
    exact ⟨x, hx, y, hy, rfl⟩

theorem rrTrace_eq (n : Nat) : ∀ ctx : APIContext,
    rrTrace ctx n = (List.range n).map
      (fun j => ctx.address_book.getD ((ctx.rr_counter + j) % ctx.address_book.length)
        (0, 0)) := by
  induction n with
  | zero => intro ctx; rfl
  | succ m ih =>
    intro ctx
    rw [rrTrace, ih, List.range_succ_eq_map, List.map_cons, List.map_map]
    dsimp only [APIContext._choose_address, Function.comp]
    rw [Nat.add_zero]
    congr 1
    apply List.map_congr_left
    intro j _
    simp only [Function.comp_apply]
    rw [show ctx.rr_counter + 1 + j = ctx.rr_counter + Nat.succ j by omega]

theorem count_decEq (a : Nat × Nat) (l : List (Nat × Nat)) :
    l.count a = @List.count _ instBEqOfDecidableEq a l := by
  induction l with
  | nil => rfl
  | cons x r ih =>
    by_cases h : x = a <;> simp [List.count_cons, h, ih, instBEqOfDecidableEq]

/-- C5: for an `APIContext` constructed by `__init__` with `W` workers and
`S` sessions per worker, any `W*S` consecutive invocations of the
round-robin chooser, started at an arbitrary counter value and with no
concurrent callers, return every `(worker, session)` address exactly
once. -/
theorem roundRobin_each_address_once :
    ∀ (info : ConnectionInfo) (ps th : Nat) (sfx : String) (ctx : APIContext) (start : Nat)
      (addr : Nat × Nat),
      APIContext.init info ps th sfx = .ok ctx →
      addr ∈ ctx.address_book →
      (rrTrace { ctx with rr_counter := start }
          (ctx.num_workers * ctx.sessions_per_worker)).count addr = 1 := by
  intro info ps th sfx ctx start addr h hmem
  obtain ⟨-, -, -, hbook, hw, hs, -, -⟩ := init_ok_proj h
  have hlen : ctx.address_book.length = max 1 th * max 1 ps := by
    rw [hbook, addressBook_length]
  have hpos : 0 < ctx.address_book.length := by
    rw [hlen]
    exact Nat.mul_pos (Nat.lt_of_lt_of_le Nat.zero_lt_one (le_max_left 1 th))
      (Nat.lt_of_lt_of_le Nat.zero_lt_one (le_max_left 1 ps))
  have htrace : rrTrace { ctx with rr_counter := start } (max 1 th * max 1 ps) =
      ctx.address_book.rotate (start % ctx.address_book.length) := by
    rw [rrTrace_eq]
    apply List.ext_getElem
    · simp [List.length_rotate, hlen]
    · intro i h1 h2
      rw [List.getElem_map, List.getElem_range]
      have hb : (start + i) % ctx.address_book.length < ctx.address_book.length :=
        Nat.mod_lt _ hpos
      show ctx.address_book.getD ((start + i) % ctx.address_book.length) (0, 0) = _
      rw [List.getD_eq_getElem _ _ hb]
      have hrot := List.get_rotate ctx.address_book (start % ctx.address_book.length) ⟨i, h2⟩
      simp only [List.get_eq_getElem] at hrot
      rw [hrot]
      congr 1
      rw [Nat.add_mod_mod, Nat.add_comm]
  rw [show ctx.num_workers * ctx.sessions_per_worker = max 1 th * max 1 ps from by
    rw [hw, hs]]
  rw [count_decEq, htrace,
    (ctx.address_book.rotate_perm (start % ctx.address_book.length)).count_eq]
  exact List.count_eq_one_of_mem (hbook ▸ addressBook_nodup (max 1 th) (max 1 ps)) hmem

/-- Witness for C5: a 2-worker, 2-session context, starting from counter 5,
returns address `(1, 0)` exactly once in 4 consecutive calls. -/
theorem roundRobin_each_address_once_witness :
    ∃ ctx, APIContext.init c5info 2 2 "_s" = .ok ctx ∧
      (rrTrace { ctx with rr_counter := 5 }
          (ctx.num_workers * ctx.sessions_per_worker)).count (1, 0) = 1 := by
  have h := roundRobin_each_address_once c5info 2 2 "_s" _ 5 (1, 0) rfl (by decide)
  exact ⟨_, rfl, h⟩

end Auth

namespace Models

theorem decodeStringMap_encode (l : List (String × String)) :
    decodeStringMap (.obj (l.map fun p => (p.1, .str p.2))) = some l := by
  induction l with
  | nil => rfl
  | cons p r ih =>
    simp only [decodeStringMap, List.map_cons, List.mapM_cons] at ih ⊢
    simp_all

theorem decodeMeta_encode (m : ObjectMeta) : decodeMeta (encodeMeta m) = some m := by
  obtain ⟨n, ns⟩ := m
  cases n <;> cases ns <;>
    simp +decide [encodeMeta, decodeMeta, optStrField, getStrField, JsonPatch.lookupKey]

/-- C8: decoding the encoding of any typed resource instance returns the
instance itself — `from_dict(to_dict(r)) = r`. -/
theorem secret_codec_roundtrip : ∀ r : Secret,
    Secret.from_dict (Secret.to_dict r) = some r := by
  intro r
  obtain ⟨av, k, md, data⟩ := r
  simp +decide [Secret.to_dict, Secret.from_dict, JsonPatch.lookupKey, decodeMeta_encode,
    decodeStringMap_encode]

end Models

namespace JsonPatch

theorem deep_equal_iff : ∀ a b : Json, _deep_equal a b = true ↔ a = b := by
  refine _deep_equal.induct
    (fun a b => _deep_equal a b = true ↔ a = b)
    (fun ms ns => deepEqualObj ms ns = true ↔ ms = ns)
    (fun xs ys => deepEqualArr xs ys = true ↔ xs = ys)
    ?_ ?_ ?_ ?_ ?_ ?_ ?_ ?_ ?_ ?_ ?_ ?_ ?_
  · simp [_deep_equal]
  · intro a b; simp [_deep_equal]
  · intro a b; simp [_deep_equal]
  · intro a b; simp [_deep_equal]
  · intro xs ys ih; simp [_deep_equal, ih]
  · intro ms ns ih; simp [_deep_equal, ih]
  · intro t x h1 h2 h3 h4 h5 h6
    cases t <;> cases x <;> simp_all [_deep_equal]
  · simp [deepEqualArr]
  · intro x xs y ys ih1 ih2; simp [deepEqualArr, ih1, ih2]
  · intro t x h1 h2
    cases t <;> cases x <;> simp_all [deepEqualArr]
    exact fun _ _ => (h2 _ _ _ _ rfl rfl rfl) rfl
  · simp [deepEqualObj]
  · intro k1 v1 ms k2 v2 ns ih1 ih2; simp [deepEqualObj, ih1, ih2]
  · intro t x h1 h2
    cases t <;> cases x <;> simp_all [deepEqualObj]
    exact ((h2 _ _ _ _ _ _ rfl rfl rfl) rfl).elim

theorem apply_patch_append (xs ys : List Op) : ∀ doc : Json,
    apply_patch doc (xs ++ ys) =
      (match apply_patch doc xs with
       | .ok d => apply_patch d ys
       | .error e => .error e) := by
  induction xs with
  | nil => intro doc; rfl
  | cons op rest ih =>
    intro doc
    simp only [List.cons_append, apply_patch]
    cases applyOp doc op with
    | ok d => exact ih d
    | error e => rfl

theorem keysOf_cons (p : String × Json) (m : List (String × Json)) :
    keysOf (p :: m) = p.1 :: keysOf m := rfl

theorem keysOf_append (a b : List (String × Json)) :
    keysOf (a ++ b) = keysOf a ++ keysOf b := List.map_append _ _ _

theorem lookupKey_append_right {k : String} {pre : List (String × Json)}
    (h : k ∉ keysOf pre) (rest : List (String × Json)) :
    lookupKey k (pre ++ rest) = lookupKey k rest := by
  induction pre with
  | nil => rfl
  | cons p m ih =>
    obtain ⟨k0, v0⟩ := p
    rw [keysOf_cons, List.mem_cons] at h
    push_neg at h
    simp only [List.cons_append, lookupKey]
    rw [if_neg fun hh => h.1 hh.symm]
    exact ih h.2

theorem lookupKey_cons_self (k : String) (v : Json) (m : List (String × Json)) :
    lookupKey k ((k, v) :: m) = some v := by simp [lookupKey]

theorem setKey_append_right {k : String} {pre : List (String × Json)}
    (h : k ∉ keysOf pre) (v w : Json) (old : List (String × Json)) :
    setKey k v (pre ++ (k, w) :: old) = pre ++ (k, v) :: old := by
  induction pre with
  | nil => simp [setKey]
  | cons p m ih =>
    obtain ⟨k0, v0⟩ := p
    rw [keysOf_cons, List.mem_cons] at h
    push_neg at h
    simp only [List.cons_append, setKey]
    rw [if_neg fun hh => h.1 hh.symm]
    exact congrArg (List.cons (k0, v0)) (ih h.2)

theorem removeKey_append_right {k : String} {pre : List (String × Json)}
    (h : k ∉ keysOf pre) (w : Json) (old : List (String × Json)) :
    removeKey k (pre ++ (k, w) :: old) = pre ++ old := by
  induction pre with
  | nil => simp [removeKey]
  | cons p m ih =>
    obtain ⟨k0, v0⟩ := p
    rw [keysOf_cons, List.mem_cons] at h
    push_neg at h
    simp only [List.cons_append, removeKey]
    rw [if_neg fun hh => h.1 hh.symm]
    exact congrArg (List.cons (k0, v0)) (ih h.2)

theorem insertKey_middle {k : String} {pre old : List (String × Json)}
    (hpre : ∀ k0 ∈ keysOf pre, k0 < k) (hold : ∀ k0 ∈ keysOf old, k < k0) (v : Json) :
    insertKey k v (pre ++ old) = pre ++ (k, v) :: old := by
  induction pre with
  | nil =>
    cases old with
    | nil => rfl
    | cons p old2 =>
      obtain ⟨k0, v0⟩ := p
      have h1 : k < k0 := hold k0 (by simp [keysOf_cons])
      simp [insertKey, ne_of_gt h1, h1]
  | cons p pre2 ih =>
    obtain ⟨k0, v0⟩ := p
    have h1 : k0 < k := hpre k0 (by simp [keysOf_cons])
    simp only [List.cons_append, insertKey]
    rw [if_neg (ne_of_lt h1), if_neg (lt_asymm h1)]
    exact congrArg (List.cons (k0, v0)) (ih fun k1 hk1 => hpre k1 (by simp [keysOf_cons, hk1]))

theorem setKey_lookup_eq {k : String} {m : List (String × Json)} {c : Json}
    (h : lookupKey k m = some c) : setKey k c m = m := by
  induction m with
  | nil => simp [lookupKey] at h
  | cons p rest ih =>
    obtain ⟨k0, v0⟩ := p
    by_cases hk : k0 = k
    · subst hk
      rw [lookupKey_cons_self] at h
      obtain rfl : v0 = c := by injection h
      simp [setKey]
    · simp only [lookupKey] at h
      rw [if_neg hk] at h
      simp [setKey, hk, ih h]

theorem lookupKey_setKey_some {k : String} {m : List (String × Json)} {c : Json}
    (h : lookupKey k m = some c) (d : Json) : lookupKey k (setKey k d m) = some d := by
  induction m with
  | nil => simp [lookupKey] at h
  | cons p rest ih =>
    obtain ⟨k0, v0⟩ := p
    by_cases hk : k0 = k
    · subst hk
      simp [setKey, lookupKey]
    · simp only [lookupKey] at h
      rw [if_neg hk] at h
      simp [setKey, lookupKey, hk, ih h]

theorem setKey_setKey (k : String) (a b : Json) (m : List (String × Json)) :
    setKey k a (setKey k b m) = setKey k a m := by
  induction m with
  | nil => simp [setKey]
  | cons p rest ih =>
    obtain ⟨k0, v0⟩ := p
    by_cases hk : k0 = k
    · subst hk; simp [setKey]
    · simp [setKey, hk, ih]

theorem getElem?_append_len (pre : List Json) (o : Json) (rest : List Json) :
    (pre ++ o :: rest)[pre.length]? = some o := by
  induction pre with
  | nil => simp
  | cons x pre2 ih => simpa using ih

theorem set_append_len (pre : List Json) (o : Json) (rest : List Json) (n : Json) :
    (pre ++ o :: rest).set pre.length n = pre ++ n :: rest := by
  induction pre with
  | nil => simp
  | cons x pre2 ih => simp [List.set, ih]

theorem insertAt_append_len (pre old : List Json) (v : Json) :
    insertAt pre.length v (pre ++ old) = pre ++ v :: old := by
  induction pre with
  | nil => rfl
  | cons x pre2 ih => simp [insertAt, ih]

theorem eraseIdx_append_len (pre : List Json) (o : Json) (rest : List Json) :
    (pre ++ o :: rest).eraseIdx pre.length = pre ++ rest := by
  induction pre with
  | nil => simp
  | cons x pre2 ih => simp [List.eraseIdx, ih]

theorem sortedKeys_iff_pairwise : ∀ l : List String,
    sortedKeys l = true ↔ List.Pairwise (· < ·) l := by
  have hchain : ∀ l : List String, sortedKeys l = true ↔ List.Chain' (· < ·) l := by
    intro l
    induction l with
    | nil => simp [sortedKeys]
    | cons a tl ih =>
      cases tl with
      | nil => simp [sortedKeys]
      | cons b r =>
        rw [sortedKeys, List.chain'_cons]
        simp only [Bool.and_eq_true, decide_eq_true_eq]
        rw [ih]
  intro l
  rw [hchain, List.chain'_iff_pairwise]

theorem wfb_obj {m : List (String × Json)} : Json.wfb (.obj m) = true ↔
    List.Pairwise (· < ·) (keysOf m) ∧ wfObj m = true := by
  simp [Json.wfb, sortedKeys_iff_pairwise]

theorem wfb_arr {xs : List Json} : Json.wfb (.arr xs) = true ↔ wfArr xs = true := by
  simp [Json.wfb]

theorem wfObj_cons {p : String × Json} {m : List (String × Json)} :
    wfObj (p :: m) = true ↔ Json.wfb p.2 = true ∧ wfObj m = true := by
  obtain ⟨k, v⟩ := p
  simp [wfObj]

theorem wfArr_cons {x : Json} {xs : List Json} :
    wfArr (x :: xs) = true ↔ Json.wfb x = true ∧ wfArr xs = true := by
  simp [wfArr]

end JsonPatch

namespace JsonPatch

theorem liftOk_prepend {op : Op} (h : op.liftOk = true) (t : Tok) :
    (op.prepend t).liftOk = true := by
  cases op with
  | add p v => cases p <;> simp_all [Op.prepend, Op.liftOk]
  | remove p => simp [Op.prepend, Op.liftOk]
  | replace p v => simp [Op.prepend, Op.liftOk]
  | test p v => simp [Op.liftOk] at h
  | copy s p => simp [Op.liftOk] at h
  | move s p => simp [Op.liftOk] at h

theorem diff_ops_liftOk : ∀ a b : Json, ∀ op ∈ json_patch_from_diff a b, op.liftOk = true := by
  refine json_patch_from_diff.induct
    (fun a b => ∀ op ∈ json_patch_from_diff a b, op.liftOk = true)
    (fun i old new => ∀ op ∈ diffArr i old new, op.liftOk = true)
    (fun old new => ∀ op ∈ diffObj old new, op.liftOk = true)
    ?_ ?_ ?_ ?_ ?_ ?_ ?_ ?_ ?_ ?_ ?_ ?_ ?_ ?_
  · intro a b h op hop
    rw [json_patch_from_diff.eq_def, if_pos h] at hop
    cases hop
  · intro ma mb hne ih op hop
    rw [json_patch_from_diff.eq_def, if_neg hne] at hop
    exact ih op hop
  · intro xs ys hne ih op hop
    rw [json_patch_from_diff.eq_def, if_neg hne] at hop
    exact ih op hop
  · intro a bb hobj harr hne op hop
    rw [json_patch_from_diff.eq_def, if_neg hne] at hop
    cases a <;> cases bb <;>
      first
      | exact (hobj _ _ rfl rfl).elim
      | exact (harr _ _ rfl rfl).elim
      | (simp only [List.mem_singleton] at hop
         subst hop
         rfl)
  · intro i op hop
    simp [diffArr] at hop
  · intro i o old ih op hop
    rw [diffArr] at hop
    rcases List.mem_cons.mp hop with rfl | hR
    · rfl
    · exact ih op hR
  · intro i n new ih op hop
    rw [diffArr] at hop
    rcases List.mem_cons.mp hop with rfl | hR
    · rfl
    · exact ih op hR
  · intro i o old n new ih1 ih2 op hop
    rw [diffArr] at hop
    rcases List.mem_append.mp hop with hL | hR
    · obtain ⟨op0, hop0, rfl⟩ := List.mem_map.mp hL
      exact liftOk_prepend (ih1 op0 hop0) _
    · exact ih2 op hR
  · intro op hop
    simp [diffObj] at hop
  · intro k v old ih op hop
    rw [diffObj] at hop
    rcases List.mem_cons.mp hop with rfl | hR
    · rfl
    · exact ih op hR
  · intro k v new ih op hop
    rw [diffObj] at hop
    rcases List.mem_cons.mp hop with rfl | hR
    · rfl
    · exact ih op hR
  · intro v1 old k2 v2 new ih1 ih2 op hop
    rw [diffObj, if_pos rfl] at hop
    rcases List.mem_append.mp hop with hL | hR
    · obtain ⟨op0, hop0, rfl⟩ := List.mem_map.mp hL
      exact liftOk_prepend (ih1 op0 hop0) _
    · exact ih2 op hR
  · intro k1 v1 old k2 v2 new hne hlt ih op hop
    rw [diffObj, if_neg hne, if_pos hlt] at hop
    rcases List.mem_cons.mp hop with rfl | hR
    · rfl
    · exact ih op hR
  · intro k1 v1 old k2 v2 new hne hnlt ih op hop
    rw [diffObj, if_neg hne, if_neg hnlt] at hop
    rcases List.mem_cons.mp hop with rfl | hR
    · rfl
    · exact ih op hR

theorem applyOp_prepend_key {op : Op} (hop : op.liftOk = true) {k : String}
    {m : List (String × Json)} {c c2 : Json} (hm : lookupKey k m = some c)
    (h : applyOp c op = .ok c2) :
    applyOp (.obj m) (op.prepend (.key k)) = .ok (.obj (setKey k c2 m)) := by
  cases op with
  | add p v =>
    cases p with
    | nil => simp [Op.liftOk] at hop
    | cons t ts =>
      simp only [applyOp, applyAdd, Op.prepend] at h ⊢
      simp only [editAtPath, hm] at h ⊢
      rw [h]
      rfl
  | remove p =>
    cases p with
    | nil => simp [applyOp, applyRemove, editAtPath] at h
    | cons t ts =>
      simp only [applyOp, applyRemove, Op.prepend] at h ⊢
      simp only [editAtPath, hm] at h ⊢
      rw [h]
      rfl
  | replace p v =>
    cases p with
    | nil =>
      simp only [applyOp, applyReplace, editAtPath] at h
      obtain rfl : v = c2 := by injection h
      simp only [applyOp, applyReplace, Op.prepend]
      simp [editAtPath, replaceLeaf, hm]
    | cons t ts =>
      simp only [applyOp, applyReplace, Op.prepend] at h ⊢
      simp only [editAtPath, hm] at h ⊢
      rw [h]
      rfl
  | test p v => simp [Op.liftOk] at hop
  | copy s p => simp [Op.liftOk] at hop
  | move s p => simp [Op.liftOk] at hop

theorem applyOp_prepend_idx {op : Op} (hop : op.liftOk = true) {xs : List Json} {i : Nat}
    {c c2 : Json} (hi : xs[i]? = some c) (h : applyOp c op = .ok c2) :
    applyOp (.arr xs) (op.prepend (.idx i)) = .ok (.arr (xs.set i c2)) := by
  have hlen : i < xs.length := by
    by_contra hc
    rw [List.getElem?_eq_none (by omega)] at hi
    cases hi
  cases op with
  | add p v =>
    cases p with
    | nil => simp [Op.liftOk] at hop
    | cons t ts =>
      simp only [applyOp, applyAdd, Op.prepend] at h ⊢
      simp only [editAtPath, hi] at h ⊢
      rw [h]
      rfl
  | remove p =>
    cases p with
    | nil => simp [applyOp, applyRemove, editAtPath] at h
    | cons t ts =>
      simp only [applyOp, applyRemove, Op.prepend] at h ⊢
      simp only [editAtPath, hi] at h ⊢
      rw [h]
      rfl
  | replace p v =>
    cases p with
    | nil =>
      simp only [applyOp, applyReplace, editAtPath] at h
      obtain rfl : v = c2 := by injection h
      simp only [applyOp, applyReplace, Op.prepend]
      simp [editAtPath, replaceLeaf, hlen]
    | cons t ts =>
      simp only [applyOp, applyReplace, Op.prepend] at h ⊢
      simp only [editAtPath, hi] at h ⊢
      rw [h]
      rfl
  | test p v => simp [Op.liftOk] at hop
  | copy s p => simp [Op.liftOk] at hop
  | move s p => simp [Op.liftOk] at hop

theorem apply_patch_prepend_key {k : String} (ops : List Op)
    (hops : ∀ op ∈ ops, op.liftOk = true) :
    ∀ (m : List (String × Json)) (c c2 : Json), lookupKey k m = some c →
      apply_patch c ops = .ok c2 →
      apply_patch (.obj m) (ops.map (Op.prepend (.key k))) = .ok (.obj (setKey k c2 m)) := by
  induction ops with
  | nil =>
    intro m c c2 hm h
    simp only [apply_patch] at h
    obtain rfl : c = c2 := by injection h
    simp [apply_patch, setKey_lookup_eq hm]
  | cons op rest ih =>
    intro m c c2 hm h
    simp only [apply_patch, List.map_cons] at h ⊢
    cases hstep : applyOp c op with
    | error e => simp [hstep] at h
    | ok d =>
      simp only [hstep] at h
      rw [applyOp_prepend_key (hops op (List.mem_cons_self _ _)) hm hstep]
      have ih2 := ih (fun o ho => hops o (List.mem_cons_of_mem _ ho)) (setKey k d m) d c2
        (lookupKey_setKey_some hm d) h
      rw [setKey_setKey] at ih2
      exact ih2

theorem apply_patch_prepend_idx {i : Nat} (ops : List Op)
    (hops : ∀ op ∈ ops, op.liftOk = true) :
    ∀ (xs : List Json) (c c2 : Json), xs[i]? = some c →
      apply_patch c ops = .ok c2 →
      apply_patch (.arr xs) (ops.map (Op.prepend (.idx i))) = .ok (.arr (xs.set i c2)) := by
  induction ops with
  | nil =>
    intro xs c c2 hi h
    simp only [apply_patch] at h
    obtain rfl : c = c2 := by injection h
    obtain ⟨hlen, he⟩ := List.getElem?_eq_some.mp hi
    have hset : xs.set i c = xs := by
      apply List.ext_getElem
      · simp
      · intro n h1 h2
        rcases eq_or_ne i n with rfl | hne
        · simpa [List.getElem_set] using he.symm
        · simp [List.getElem_set, hne]
    rw [List.map_nil, hset]
    rfl
  | cons op rest ih =>
    intro xs c c2 hi h
    simp only [apply_patch, List.map_cons] at h ⊢
    cases hstep : applyOp c op with
    | error e => simp [hstep] at h
    | ok d =>
      simp only [hstep] at h
      rw [applyOp_prepend_idx (hops op (List.mem_cons_self _ _)) hi hstep]
      have hlen : i < xs.length := by
        by_contra hc
        rw [List.getElem?_eq_none (by omega)] at hi
        cases hi
      have ih2 := ih (fun o ho => hops o (List.mem_cons_of_mem _ ho)) (xs.set i d) d c2
        (List.getElem?_set_self (by simpa using hlen)) h
      rw [List.set_set] at ih2
      exact ih2

end JsonPatch

namespace JsonPatch

theorem diff_apply_core : ∀ a b : Json, Json.wfb a = true → Json.wfb b = true →
    apply_patch a (json_patch_from_diff a b) = .ok b := by
  refine json_patch_from_diff.induct
    (fun a b => Json.wfb a = true → Json.wfb b = true →
      apply_patch a (json_patch_from_diff a b) = .ok b)
    (fun i old new => ∀ pre : List Json, i = pre.length → wfArr old = true → wfArr new = true →
      apply_patch (.arr (pre ++ old)) (diffArr i old new) = .ok (.arr (pre ++ new)))
    (fun old new => ∀ pre : List (String × Json), wfObj old = true → wfObj new = true →
      List.Pairwise (· < ·) (keysOf (pre ++ old)) →
      List.Pairwise (· < ·) (keysOf (pre ++ new)) →
      apply_patch (.obj (pre ++ old)) (diffObj old new) = .ok (.obj (pre ++ new)))
    ?_ ?_ ?_ ?_ ?_ ?_ ?_ ?_ ?_ ?_ ?_ ?_ ?_ ?_
  · intro a b h _ _
    rw [json_patch_from_diff.eq_def, if_pos h]
    obtain rfl : a = b := (deep_equal_iff a b).mp h
    rfl
  · intro ma mb hne ih ha hb
    rw [json_patch_from_diff.eq_def, if_neg hne]
    obtain ⟨hpa, hwa⟩ := wfb_obj.mp ha
    obtain ⟨hpb, hwb⟩ := wfb_obj.mp hb
    simpa using ih [] hwa hwb (by simpa using hpa) (by simpa using hpb)
  · intro xs ys hne ih ha hb
    rw [json_patch_from_diff.eq_def, if_neg hne]
    simpa using ih [] rfl (wfb_arr.mp ha) (wfb_arr.mp hb)
  · intro a bb hobj harr hne ha hb
    rw [json_patch_from_diff.eq_def, if_neg hne]
    cases a <;> cases bb <;>
      first
      | exact (hobj _ _ rfl rfl).elim
      | exact (harr _ _ rfl rfl).elim
      | simp [apply_patch, applyOp, applyReplace, editAtPath]
  · intro i pre hi hwo hwn
    simp [diffArr, apply_patch]
  · intro i o old ih pre hi hwo hwn
    subst hi
    have hstep : applyOp (.arr (pre ++ o :: old)) (.remove [.idx pre.length]) =
        .ok (.arr (pre ++ old)) := by
      simp only [applyOp, applyRemove, editAtPath, removeLeaf]
      rw [if_pos (by simp)]
      rw [eraseIdx_append_len]
    simp only [diffArr, apply_patch, hstep]
    exact ih pre rfl (wfArr_cons.mp hwo).2 hwn
  · intro i n new ih pre hi hwo hwn
    subst hi
    have hstep : applyOp (.arr (pre ++ [])) (.add [.idx pre.length] n) =
        .ok (.arr (pre ++ [n])) := by
      simp only [applyOp, applyAdd, editAtPath, addLeaf]
      rw [if_pos (by simp)]
      rw [insertAt_append_len pre [] n]
    simp only [diffArr, apply_patch, hstep]
    have hrec := ih (pre ++ [n]) (by simp) hwo (wfArr_cons.mp hwn).2
    simpa [List.append_assoc] using hrec
  · intro i o old n new ih1 ih2 pre hi hwo hwn
    subst hi
    obtain ⟨hwo1, hwo2⟩ := wfArr_cons.mp hwo
    obtain ⟨hwn1, hwn2⟩ := wfArr_cons.mp hwn
    simp only [diffArr]
    rw [apply_patch_append]
    have hlift := apply_patch_prepend_idx (i := pre.length) (json_patch_from_diff o n)
      (diff_ops_liftOk o n) (pre ++ o :: old) o n (getElem?_append_len pre o old)
      (ih1 hwo1 hwn1)
    simp only [hlift]
    rw [set_append_len]
    have hrec := ih2 (pre ++ [n]) (by simp) hwo2 hwn2
    simpa [List.append_assoc] using hrec
  · intro pre hwo hwn hpo hpn
    simp [diffObj, apply_patch]
  · intro k v old ih pre hwo hwn hpo hpn
    have hpo' : List.Pairwise (· < ·) (keysOf pre ++ k :: keysOf old) := by
      simpa [keysOf_append, keysOf_cons] using hpo
    have hknotin : k ∉ keysOf pre := fun hk =>
      lt_irrefl k ((List.pairwise_append.mp hpo').2.2 k hk k (List.mem_cons_self _ _))
    have hstep : applyOp (.obj (pre ++ (k, v) :: old)) (.remove [.key k]) =
        .ok (.obj (pre ++ old)) := by
      simp only [applyOp, applyRemove, editAtPath, removeLeaf]
      rw [removeKey_append_right hknotin]
    simp only [diffObj, apply_patch, hstep]
    refine ih pre (wfObj_cons.mp hwo).2 hwn ?_ hpn
    have hsub : List.Sublist (keysOf (pre ++ old)) (keysOf (pre ++ (k, v) :: old)) := by
      rw [keysOf_append, keysOf_append, keysOf_cons]
      exact List.Sublist.append_left (List.sublist_cons_self _ _) _
    exact List.Pairwise.sublist hsub hpo
  · intro k v new ih pre hwo hwn hpo hpn
    have hpn' : List.Pairwise (· < ·) (keysOf pre ++ k :: keysOf new) := by
      simpa [keysOf_append, keysOf_cons] using hpn
    have hprelt : ∀ k0 ∈ keysOf pre, k0 < k := fun k0 hk0 =>
      (List.pairwise_append.mp hpn').2.2 k0 hk0 k (List.mem_cons_self _ _)
    have hstep : applyOp (.obj (pre ++ [])) (.add [.key k] v) =
        .ok (.obj (pre ++ [(k, v)])) := by
      simp only [applyOp, applyAdd, editAtPath, addLeaf]
      rw [insertKey_middle hprelt (fun k0 hk0 => by simp [keysOf] at hk0) v]
    simp only [diffObj, apply_patch, hstep]
    have hrec := ih (pre ++ [(k, v)]) hwo (wfObj_cons.mp hwn).2 ?_ ?_
    · simpa [List.append_assoc] using hrec
    · have h1 : List.Sublist (keysOf [(k, v)]) (k :: keysOf new) := by simp [keysOf]
      have hsub : List.Sublist (keysOf ((pre ++ [(k, v)]) ++ []))
          (keysOf pre ++ k :: keysOf new) := by
        rw [List.append_nil, keysOf_append]
        exact List.Sublist.append_left h1 (keysOf pre)
      exact List.Pairwise.sublist hsub hpn'
    · simpa [keysOf_append, keysOf_cons, List.append_assoc] using hpn'
  · intro v1 old k2 v2 new ih1 ih2 pre hwo hwn hpo hpn
    obtain ⟨hw1, hw2⟩ := wfObj_cons.mp hwo
    obtain ⟨hw3, hw4⟩ := wfObj_cons.mp hwn
    have hpo' : List.Pairwise (· < ·) (keysOf pre ++ k2 :: keysOf old) := by
      simpa [keysOf_append, keysOf_cons] using hpo
    have hpn' : List.Pairwise (· < ·) (keysOf pre ++ k2 :: keysOf new) := by
      simpa [keysOf_append, keysOf_cons] using hpn
    have hknotin : k2 ∉ keysOf pre := fun hk =>
      lt_irrefl k2 ((List.pairwise_append.mp hpo').2.2 k2 hk k2 (List.mem_cons_self _ _))
    rw [show diffObj ((k2, v1) :: old) ((k2, v2) :: new) =
        (json_patch_from_diff v1 v2).map (Op.prepend (Tok.key k2)) ++ diffObj old new from by
      simp [diffObj]]
    rw [apply_patch_append]
    have hlook : lookupKey k2 (pre ++ (k2, v1) :: old) = some v1 := by
      rw [lookupKey_append_right hknotin, lookupKey_cons_self]
    have hlift := apply_patch_prepend_key (k := k2) (json_patch_from_diff v1 v2)
      (diff_ops_liftOk v1 v2) (pre ++ (k2, v1) :: old) v1 v2 hlook (ih1 hw1 hw3)
    simp only [hlift]
    rw [setKey_append_right hknotin]
    have hrec := ih2 (pre ++ [(k2, v2)]) hw2 hw4 ?_ ?_
    · simpa [List.append_assoc] using hrec
    · simpa [keysOf_append, keysOf_cons, List.append_assoc] using hpo'
    · simpa [keysOf_append, keysOf_cons, List.append_assoc] using hpn'
  · intro k1 v1 old k2 v2 new hne hlt ih pre hwo hwn hpo hpn
    have hpo' : List.Pairwise (· < ·) (keysOf pre ++ k1 :: keysOf old) := by
      simpa [keysOf_append, keysOf_cons] using hpo
    have hknotin : k1 ∉ keysOf pre := fun hk =>
      lt_irrefl k1 ((List.pairwise_append.mp hpo').2.2 k1 hk k1 (List.mem_cons_self _ _))
    have hstep : applyOp (.obj (pre ++ (k1, v1) :: old)) (.remove [.key k1]) =
        .ok (.obj (pre ++ old)) := by
      simp only [applyOp, applyRemove, editAtPath, removeLeaf]
      rw [removeKey_append_right hknotin]
    simp only [diffObj]
    rw [if_neg hne, if_pos hlt]
    simp only [apply_patch, hstep]
    refine ih pre (wfObj_cons.mp hwo).2 hwn ?_ hpn
    have hsub : List.Sublist (keysOf (pre ++ old)) (keysOf (pre ++ (k1, v1) :: old)) := by
      rw [keysOf_append, keysOf_append, keysOf_cons]
      exact List.Sublist.append_left (List.sublist_cons_self _ _) _
    exact List.Pairwise.sublist hsub hpo
  · intro k1 v1 old k2 v2 new hne hnlt ih pre hwo hwn hpo hpn
    have hgt : k2 < k1 := by
      rcases lt_trichotomy k1 k2 with h | h | h
      · exact absurd h hnlt
      · exact absurd h hne
      · exact h
    have hpo' : List.Pairwise (· < ·) (keysOf pre ++ k1 :: keysOf old) := by
      simpa [keysOf_append, keysOf_cons] using hpo
    have hpn' : List.Pairwise (· < ·) (keysOf pre ++ k2 :: keysOf new) := by
      simpa [keysOf_append, keysOf_cons] using hpn
    have hpoparts := List.pairwise_append.mp hpo'
    have hpnparts := List.pairwise_append.mp hpn'
    have hprelt : ∀ k0 ∈ keysOf pre, k0 < k2 := fun k0 hk0 =>
      hpnparts.2.2 k0 hk0 k2 (List.mem_cons_self _ _)
    have holdgt : ∀ k0 ∈ keysOf ((k1, v1) :: old), k2 < k0 := by
      intro k0 hk0
      rw [keysOf_cons, List.mem_cons] at hk0
      rcases hk0 with rfl | hk0
      · exact hgt
      · exact lt_trans hgt ((List.pairwise_cons.mp hpoparts.2.1).1 k0 hk0)
    have hstep : applyOp (.obj (pre ++ (k1, v1) :: old)) (.add [.key k2] v2) =
        .ok (.obj (pre ++ (k2, v2) :: (k1, v1) :: old)) := by
      simp only [applyOp, applyAdd, editAtPath, addLeaf]
      rw [insertKey_middle hprelt holdgt v2]
    simp only [diffObj]
    rw [if_neg hne, if_neg hnlt]
    simp only [apply_patch, hstep]
    have hrec := ih (pre ++ [(k2, v2)]) hwo (wfObj_cons.mp hwn).2 ?_ ?_
    · simpa [List.append_assoc] using hrec
    · rw [show keysOf ((pre ++ [(k2, v2)]) ++ (k1, v1) :: old) =
          keysOf pre ++ k2 :: k1 :: keysOf old by
        simp [keysOf_append, keysOf_cons, List.append_assoc]]
      refine List.pairwise_append.mpr ⟨hpoparts.1, ?_, ?_⟩
      · refine List.pairwise_cons.mpr ⟨?_, hpoparts.2.1⟩
        intro k0 hk0
        rcases List.mem_cons.mp hk0 with rfl | hk0
        · exact hgt
        · exact holdgt k0 (by simpa [keysOf_cons] using List.mem_cons_of_mem k1 hk0)
      · intro a ha b hb
        rcases List.mem_cons.mp hb with rfl | hb
        · exact hprelt a ha
        · exact hpoparts.2.2 a ha b hb
    · simpa [keysOf_append, keysOf_cons, List.append_assoc] using hpn'

end JsonPatch

namespace JsonPatch

/-- C1: for every pair of canonical JSON trees `A` and `B` (objects in the
canonical sorted-key representation of Python dicts), applying the patch
produced by the diff engine to `A` yields exactly `B`:
`apply_patch(A, json_patch_from_diff(A, B)) = B`. -/
theorem json_patch_diff_roundtrip (a b : Json) (ha : Json.wfb a = true)
    (hb : Json.wfb b = true) :
    apply_patch a (json_patch_from_diff a b) = .ok b :=
  diff_apply_core a b ha hb

/-- Witness for C1 at the spec's pointer-escaping scenario: both documents
are canonical and the diff applied to the left document yields the right
one. -/
theorem json_patch_diff_roundtrip_witness :
    Json.wfb c1A = true ∧ Json.wfb c1B = true ∧
    apply_patch c1A (json_patch_from_diff c1A c1B) = .ok c1B := by
  have h1 : Json.wfb c1A = true := by
    simp +decide [c1A, Json.wfb, wfObj, wfArr, sortedKeys, keysOf]
  have h2 : Json.wfb c1B = true := by
    simp +decide [c1B, Json.wfb, wfObj, wfArr, sortedKeys, keysOf]
  exact ⟨h1, h2, json_patch_diff_roundtrip c1A c1B h1 h2⟩

end JsonPatch
